import Mathlib

/-!
Verification of `easy_django_cli/cli.py` (timonweb/easy-django-cli).

The development is a shallow embedding of the two halves of the script:

* the dispatch half (`run_manage_py_command`, `run_django_admin_command`,
  `execute_django_command`): modelled with an explicit environment `Env`
  giving the behaviour of the external calls (`subprocess.run` and Django's
  `execute_from_command_line`), explicit propagation of Python exceptions
  through `PyResult`, and a result record `ExecResult` carrying the exit
  code, the lines printed to stderr, the final value of `sys.argv`, and the
  trace of external calls made;

* the search half (`_find_files_scan_dir`, `find_manage_py`): modelled over
  a filesystem tree `FSTree`.  Paths are lists of name components; the
  filesystem root is the empty list, and `List.dropLast` is `Path.parent`.
  `find_manage_py` additionally returns the list of directory levels it
  scanned, so that "never scans" claims are statable.

`_get_top_level_directory` reads Django settings (external input); it is
modelled as a parameter `top_level_dir : Option (List String)` passed to
`find_manage_py`.
-/

/-- The `code` attribute of a Python `SystemExit`: an `int`, `None`, or any
other object (e.g. a string message). -/
inductive PyExitCode where
  | int (c : Int)
  | noneVal
  | str (s : String)
deriving DecidableEq, Repr

/-- The Python exceptions distinguished by the `try/except` chain of
`execute_django_command`.  `otherException` stands for any subclass of
`Exception` other than `SystemExit` (which subclasses `BaseException`) and
`ImportError`; `keyboardInterrupt` is separate because `KeyboardInterrupt`
subclasses `BaseException`, not `Exception`, so in CPython it is NOT caught
by the `except Exception` clause and falls through to the dedicated
`except KeyboardInterrupt` clause. -/
inductive PyExc where
  | systemExit (code : PyExitCode)
  | importError (msg : String)
  | otherException (msg : String)
  | keyboardInterrupt
deriving DecidableEq, Repr

/-- Result of running a piece of Python code: a value, or a raised
exception propagating out. -/
inductive PyResult (α : Type) where
  | ok (a : α)
  | exn (e : PyExc)
deriving DecidableEq, Repr

/-- Behaviour of the external world: what `subprocess.run(command)` does
(returns a return code, or raises an OS-level exception); what the
statement `from django.core.management import execute_from_command_line`
does (succeeds, or raises — typically `ImportError` when Django is not
installed); and what Django's `execute_from_command_line(argv)` does
(returns, or raises). -/
structure Env where
  subprocessRun : List String → PyResult Int
  djangoImport : PyResult Unit
  executeFromCommandLine : List String → PyResult Unit

/-- The pieces of interpreter state the script touches: `sys.argv` and
`sys.executable`. -/
structure SysState where
  argv : List String
  executable : String
deriving DecidableEq, Repr

/-- `run_manage_py_command(manage_py_path, args)`:
`command = [sys.executable, str(manage_py_path)] + args;`
`result = subprocess.run(command); return result.returncode`.
Returns the (possibly exceptional) return code together with the one
subprocess command issued. -/
def run_manage_py_command (env : Env) (executable : String)
    (manage_py_path : String) (args : List String) :
    PyResult Int × List (List String) :=
  let command := [executable, manage_py_path] ++ args
  (env.subprocessRun command, [command])

/-- Result of `run_django_admin_command`: the returned/raised value, the
interpreter state afterwards, and the argv lists handed to in-process
calls (empty when the import raised and no call was made). -/
structure AdminRun where
  result : PyResult Int
  state : SysState
  calls : List (List String)
deriving DecidableEq, Repr

/-- `run_django_admin_command(args)`: the function body runs, in order,
`from django.core.management import execute_from_command_line` — which can
raise (`ImportError` when Django is absent); in that case the function is
left before `sys.argv` is assigned and before any in-process call — then
`sys.argv = ["django-admin"] + args; execute_from_command_line(sys.argv);`
`return 0`.  After a successful import the assignment precedes the call,
so the new argv is in force whether or not the call itself raises. -/
def run_django_admin_command (env : Env) (st : SysState)
    (args : List String) : AdminRun :=
  match env.djangoImport with
  | PyResult.exn e => { result := PyResult.exn e, state := st, calls := [] }
  | PyResult.ok _ =>
      let newArgv := ["django-admin"] ++ args
      let st' : SysState := { st with argv := newArgv }
      match env.executeFromCommandLine newArgv with
      | PyResult.ok _ =>
          { result := PyResult.ok 0, state := st', calls := [newArgv] }
      | PyResult.exn e =>
          { result := PyResult.exn e, state := st', calls := [newArgv] }

/-- The stderr message printed by the `except ImportError` clause. -/
def importErrorMessage : String :=
  "Error: Django is not installed or manage.py not found.\nPlease install Django or run this command from a Django project directory."

/-- The `except` chain of `execute_django_command`, mapping the outcome of
the `try` body to an exit code and the list of stderr lines printed:
`except SystemExit as e: return e.code if isinstance(e.code, int) else 1`;
`except ImportError: print(...); return 1`;
`except Exception as e: print(f"Error executing django command: {e}"); return 1`;
`except KeyboardInterrupt: return 1` (reached because `KeyboardInterrupt`
is not a subclass of `Exception`). -/
def exceptChain (r : PyResult Int) : Int × List String :=
  match r with
  | PyResult.ok c => (c, [])
  | PyResult.exn (PyExc.systemExit code) =>
      match code with
      | PyExitCode.int c => (c, [])
      | PyExitCode.noneVal => (1, [])
      | PyExitCode.str _ => (1, [])
  | PyResult.exn (PyExc.importError _) => (1, [importErrorMessage])
  | PyResult.exn (PyExc.otherException msg) =>
      (1, ["Error executing django command: " ++ msg])
  | PyResult.exn PyExc.keyboardInterrupt => (1, [])

/-- Observable outcome of `execute_django_command`: exit code, stderr lines
printed by the except clauses, the final `sys.argv`, and the traces of
subprocess invocations and in-process `execute_from_command_line` calls. -/
structure ExecResult where
  exitCode : Int
  stderr : List String
  finalArgv : List String
  subprocessCalls : List (List String)
  inProcessCalls : List (List String)
deriving DecidableEq, Repr

/-- `execute_django_command(manage_py_path)`: reads `args = sys.argv[1:]`,
dispatches to `run_manage_py_command` when a path was supplied (`if
manage_py_path:` — every `Path` object is truthy, so this is a None test)
and to `run_django_admin_command` otherwise, and translates exceptions via
the except chain. -/
def execute_django_command (env : Env) (st : SysState)
    (manage_py_path : Option String) : ExecResult :=
  let args := st.argv.tail
  match manage_py_path with
  | some p =>
      let r := run_manage_py_command env st.executable p args
      let ec := exceptChain r.fst
      { exitCode := ec.fst, stderr := ec.snd, finalArgv := st.argv,
        subprocessCalls := r.snd, inProcessCalls := [] }
  | none =>
      let r := run_django_admin_command env st args
      let ec := exceptChain r.result
      { exitCode := ec.fst, stderr := ec.snd, finalArgv := r.state.argv,
        subprocessCalls := [], inProcessCalls := r.calls }

/-- Directory names skipped by the downward scan
(`SKIP_DIRS` in `cli.py`; a frozenset, only membership matters). -/
def SKIP_DIRS : List String :=
  ["venv", "virtualenv",
   "__pycache__",
   "node_modules",
   "static", "build", "dist",
   "logs", "log", "tmp",
   "media"]

/-- `TOP_LEVEL_SEARCH_MAX_DEPTH = 3`. -/
def TOP_LEVEL_SEARCH_MAX_DEPTH : Nat := 3

mutual
/-- A filesystem node as it appears to `os.scandir` with
`follow_symlinks=False`: a regular file, a real directory (with its entry
listing, in the order `os.scandir` yields it), or a symlink (standing for
any entry that is neither a regular file nor a real directory; its target
is taken to exist, so `Path.exists()` — which follows symlinks — is true
for every modelled entry). -/
inductive FSTree where
  | file : FSTree
  | symlink : FSTree
  | dir : FSEntries → FSTree

/-- A directory listing: ordered named entries. -/
inductive FSEntries where
  | nil : FSEntries
  | cons : String → FSTree → FSEntries → FSEntries
end

mutual
/-- Follow a component path down the tree (first entry wins on duplicate
sibling names; real filesystems have none, cf. `FSTree.wfb`). -/
def FSTree.lookup : FSTree → List String → Option FSTree
  | t, [] => some t
  | FSTree.dir es, n :: rest => FSEntries.lookupName es n rest
  | FSTree.file, _ :: _ => none
  | FSTree.symlink, _ :: _ => none

/-- Find the entry named `n` in a listing and continue down `rest`. -/
def FSEntries.lookupName : FSEntries → String → List String → Option FSTree
  | FSEntries.nil, _, _ => none
  | FSEntries.cons name t es, n, rest =>
      if name = n then FSTree.lookup t rest else FSEntries.lookupName es n rest
end

/-- No duplicate names in a list (membership-based). -/
def nodupB : List String → Bool
  | [] => true
  | x :: xs => if x ∈ xs then false else nodupB xs

/-- The names of a listing, in order. -/
def FSEntries.names : FSEntries → List String
  | FSEntries.nil => []
  | FSEntries.cons name _ es => name :: FSEntries.names es

mutual
/-- Well-formedness of a tree as a real filesystem: sibling names are
pairwise distinct, recursively. -/
def FSTree.wfb : FSTree → Bool
  | FSTree.file => true
  | FSTree.symlink => true
  | FSTree.dir es => nodupB (FSEntries.names es) && FSEntries.wfb es

/-- All entries of a listing are well-formed. -/
def FSEntries.wfb : FSEntries → Bool
  | FSEntries.nil => true
  | FSEntries.cons _ t es => FSTree.wfb t && FSEntries.wfb es
end

/-- `entry.name.startswith('.')` for the one-character pattern `'.'`: the
name's first character is `'.'`.  (Expressed on the character list because
`String.startsWith` is opaque to kernel reduction.) -/
def startsWithDot (s : String) : Bool :=
  match s.data with
  | [] => false
  | c :: _ => c = '.'

/-- First pass of the `os.scandir` loop in `_find_files_scan_dir`: the loop
returns `entry.path` for the first entry with
`entry.is_file(follow_symlinks=False) and entry.name == filename`; this
early return fires before any recursion into subdirectories, so when such a
file entry exists the directories collected so far are discarded.  Paths
are component lists: `entry.path` is `directory ++ [entry.name]`. -/
def findFirstMatchingFile (directory : List String) (entries : FSEntries)
    (filename : String) : Option (List String) :=
  match entries with
  | FSEntries.nil => none
  | FSEntries.cons name t rest =>
      match t with
      | FSTree.file =>
          if name = filename then some (directory ++ [name])
          else findFirstMatchingFile directory rest filename
      | _ => findFirstMatchingFile directory rest filename

mutual
/-- `_find_files_scan_dir(directory, filename, skip_dirs)`: scan the
listing for a file entry named `filename` (returned immediately when
found), otherwise recurse into the collected subdirectories — the
`entry.is_dir(follow_symlinks=False)` entries whose names neither start
with `'.'` nor belong to `skip_dirs` — in listing order, returning the
first match.  Scanning anything that is not a directory raises an
`OSError`, which the function catches and turns into `None`. -/
def _find_files_scan_dir (directory : List String) (tree : FSTree)
    (filename : String) (skip_dirs : List String) : Option (List String) :=
  match tree with
  | FSTree.dir entries =>
      match findFirstMatchingFile directory entries filename with
      | some p => some p
      | none => searchSubdirs directory entries filename skip_dirs
  | FSTree.file => none
  | FSTree.symlink => none

/-- Second pass of `_find_files_scan_dir`: walk the collected
subdirectories in listing order (the filter applied while collecting) and
return the first recursive match. -/
def searchSubdirs (directory : List String) (entries : FSEntries)
    (filename : String) (skip_dirs : List String) : Option (List String) :=
  match entries with
  | FSEntries.nil => none
  | FSEntries.cons name t rest =>
      match t with
      | FSTree.dir es =>
          if startsWithDot name || skip_dirs.contains name then
            searchSubdirs directory rest filename skip_dirs
          else
            match _find_files_scan_dir (directory ++ [name]) (FSTree.dir es)
                filename skip_dirs with
            | some r => some r
            | none => searchSubdirs directory rest filename skip_dirs
      | _ => searchSubdirs directory rest filename skip_dirs
end

/-- The downward scan performed at one level of `find_manage_py`'s upward
loop: `_find_files_scan_dir(search_current, "manage.py", SKIP_DIRS)`.
A path that does not resolve to anything makes `os.scandir` raise, which
`_find_files_scan_dir` catches, returning `None`. -/
def scanAt (root : FSTree) (p : List String) : Option (List String) :=
  match FSTree.lookup root p with
  | some t => _find_files_scan_dir p t "manage.py" SKIP_DIRS
  | none => none

/-- `(search_current / name).exists()`. -/
def pathExists (root : FSTree) (p : List String) : Bool :=
  (FSTree.lookup root p).isSome

/-- The upward loop of `find_manage_py`, with `search_current` the current
level, `top_level_dir` the result of `_get_top_level_directory()` (a
parameter: it is read from Django settings), and `level` the ascent
counter.  Mirrors the loop body in order: scan the level (return the match
if any); break on a `.git` entry; break on a `pyproject.toml` entry;
`return None` when there is no top-level dir and
`level >= TOP_LEVEL_SEARCH_MAX_DEPTH`; break at the top-level dir; break at
the filesystem root (`parent == search_current`, i.e. the empty path);
otherwise ascend.  Besides the `Optional[Path]` result it returns the list
of levels scanned, outermost call first. -/
def find_manage_py_from (root : FSTree) (search_current : List String)
    (top_level_dir : Option (List String)) (level : Nat) :
    Option (List String) × List (List String) :=
  match scanAt root search_current with
  | some p => (some p, [search_current])
  | none =>
      if pathExists root (search_current ++ [".git"]) then
        (none, [search_current])
      else if pathExists root (search_current ++ ["pyproject.toml"]) then
        (none, [search_current])
      else if top_level_dir = none ∧ TOP_LEVEL_SEARCH_MAX_DEPTH ≤ level then
        (none, [search_current])
      else if some search_current = top_level_dir then
        (none, [search_current])
      else if hroot : search_current = [] then
        (none, [search_current])
      else
        let r := find_manage_py_from root search_current.dropLast top_level_dir
            (level + 1)
        (r.fst, search_current :: r.snd)
termination_by search_current.length
decreasing_by
  have : search_current.length ≠ 0 := fun hz => hroot (List.eq_nil_of_length_eq_zero hz)
  simp [List.length_dropLast]
  omega

/-- `find_manage_py()` run from working directory `cwd` (the resolved
`Path.cwd()`), on filesystem `root`, with `_get_top_level_directory()`
returning `top_level_dir`.  Second component: the levels scanned. -/
def find_manage_py (root : FSTree) (cwd : List String)
    (top_level_dir : Option (List String)) :
    Option (List String) × List (List String) :=
  find_manage_py_from root cwd top_level_dir 0

/-- `isinstance(e.code, int)` for the modelled `SystemExit` payload. -/
def PyExitCode.isInt : PyExitCode → Bool
  | PyExitCode.int _ => true
  | PyExitCode.noneVal => false
  | PyExitCode.str _ => false

/-- A sample interpreter state: program invoked as
`easy-django runserver 8000`. -/
def stdState : SysState :=
  { argv := ["easy-django", "runserver", "8000"], executable := "/usr/bin/python3" }

/-- Environment where every external call succeeds (subprocess exits 7). -/
def envOk : Env :=
  { subprocessRun := fun _ => PyResult.ok 7,
    djangoImport := PyResult.ok (),
    executeFromCommandLine := fun _ => PyResult.ok () }

/-- Environment where every external call raises `SystemExit(5)`. -/
def envSysExit5 : Env :=
  { subprocessRun := fun _ => PyResult.exn (PyExc.systemExit (PyExitCode.int 5)),
    djangoImport := PyResult.ok (),
    executeFromCommandLine := fun _ => PyResult.exn (PyExc.systemExit (PyExitCode.int 5)) }

/-- Environment where every external call raises `KeyboardInterrupt`. -/
def envKeyboard : Env :=
  { subprocessRun := fun _ => PyResult.exn PyExc.keyboardInterrupt,
    djangoImport := PyResult.ok (),
    executeFromCommandLine := fun _ => PyResult.exn PyExc.keyboardInterrupt }

/-- Environment where every external call raises `RuntimeError("boom")`
(an `Exception` that is neither `SystemExit` nor `ImportError`). -/
def envBoom : Env :=
  { subprocessRun := fun _ => PyResult.exn (PyExc.otherException "boom"),
    djangoImport := PyResult.ok (),
    executeFromCommandLine := fun _ => PyResult.exn (PyExc.otherException "boom") }

/-- Environment where every external call raises `SystemExit(None)`
(e.g. a bare `sys.exit()`). -/
def envExitNone : Env :=
  { subprocessRun := fun _ => PyResult.exn (PyExc.systemExit PyExitCode.noneVal),
    djangoImport := PyResult.ok (),
    executeFromCommandLine := fun _ => PyResult.exn (PyExc.systemExit PyExitCode.noneVal) }

/-- Environment where Django is not installed: the import statement itself
raises `ImportError`, before `sys.argv` is ever assigned. -/
def envNoDjango : Env :=
  { subprocessRun := fun _ => PyResult.ok 0,
    djangoImport := PyResult.exn (PyExc.importError "No module named django"),
    executeFromCommandLine := fun _ => PyResult.ok () }

/-- C1: with a manage.py path supplied, `execute_django_command` returns
exactly the return code of the subprocess that ran the entry script; and
whenever the underlying call (in either branch; in the fallback branch the
call happens after a successful django import) raises `SystemExit`
carrying an integer code `c`, it returns `c`. -/
theorem exit_code_propagation (env : Env) (st : SysState) (p : String)
    (rc c : Int) :
    (env.subprocessRun ([st.executable, p] ++ st.argv.tail) = PyResult.ok rc →
      (execute_django_command env st (some p)).exitCode = rc) ∧
    (env.subprocessRun ([st.executable, p] ++ st.argv.tail) =
        PyResult.exn (PyExc.systemExit (PyExitCode.int c)) →
      (execute_django_command env st (some p)).exitCode = c) ∧
    (env.djangoImport = PyResult.ok () →
      env.executeFromCommandLine ("django-admin" :: st.argv.tail) =
        PyResult.exn (PyExc.systemExit (PyExitCode.int c)) →
      (execute_django_command env st none).exitCode = c) := by
  refine ⟨fun h => ?_, fun h => ?_, fun hi h => ?_⟩
  · simp only [List.cons_append, List.nil_append] at h
    simp [execute_django_command, run_manage_py_command, exceptChain, h]
  · simp only [List.cons_append, List.nil_append] at h
    simp [execute_django_command, run_manage_py_command, exceptChain, h]
  · simp [execute_django_command, run_django_admin_command, exceptChain, hi, h]

/-- Witness for C1 at concrete environments: a subprocess exiting 7 and a
Django call raising `SystemExit(5)`. -/
theorem exit_code_propagation_witness :
    (execute_django_command envOk stdState (some "/proj/manage.py")).exitCode = 7 ∧
    (execute_django_command envSysExit5 stdState (some "/proj/manage.py")).exitCode = 5 ∧
    (execute_django_command envSysExit5 stdState none).exitCode = 5 :=
  ⟨(exit_code_propagation envOk stdState "/proj/manage.py" 7 5).1 rfl,
   (exit_code_propagation envSysExit5 stdState "/proj/manage.py" 7 5).2.1 rfl,
   (exit_code_propagation envSysExit5 stdState "/proj/manage.py" 7 5).2.2 rfl rfl⟩

/-- C2 counterexample: when the dispatched command raises
`KeyboardInterrupt` — an exception that is neither a `SystemExit` with a
specific exit code nor an `ImportError` — `execute_django_command` does
return exit code 1, but it prints NO error message (the dedicated
`except KeyboardInterrupt` clause returns silently), refuting the claim
that every such exception produces a printed message. -/
theorem keyboard_interrupt_prints_nothing :
    (execute_django_command envKeyboard stdState none).exitCode = 1 ∧
    (execute_django_command envKeyboard stdState none).stderr = [] := by
  constructor <;> rfl

/-- C2 (amended): an `Exception` other than `SystemExit`/`ImportError`
yields a printed error message and exit code 1, in both dispatch branches
(for the fallback branch, raised by the in-process call made after a
successful django import); a `KeyboardInterrupt` also yields exit code 1
but with no printed message. -/
theorem other_exception_exit_codes (env : Env) (st : SysState) (p : String)
    (msg : String) :
    (env.djangoImport = PyResult.ok () →
      env.executeFromCommandLine ("django-admin" :: st.argv.tail) =
        PyResult.exn (PyExc.otherException msg) →
      (execute_django_command env st none).exitCode = 1 ∧
      (execute_django_command env st none).stderr =
        ["Error executing django command: " ++ msg]) ∧
    (env.subprocessRun ([st.executable, p] ++ st.argv.tail) =
        PyResult.exn (PyExc.otherException msg) →
      (execute_django_command env st (some p)).exitCode = 1 ∧
      (execute_django_command env st (some p)).stderr =
        ["Error executing django command: " ++ msg]) ∧
    (env.djangoImport = PyResult.ok () →
      env.executeFromCommandLine ("django-admin" :: st.argv.tail) =
        PyResult.exn PyExc.keyboardInterrupt →
      (execute_django_command env st none).exitCode = 1 ∧
      (execute_django_command env st none).stderr = []) ∧
    (env.subprocessRun ([st.executable, p] ++ st.argv.tail) =
        PyResult.exn PyExc.keyboardInterrupt →
      (execute_django_command env st (some p)).exitCode = 1 ∧
      (execute_django_command env st (some p)).stderr = []) := by
  refine ⟨fun hi h => ?_, fun h => ?_, fun hi h => ?_, fun h => ?_⟩
  · simp [execute_django_command, run_django_admin_command, exceptChain, hi, h]
  · simp only [List.cons_append, List.nil_append] at h
    simp [execute_django_command, run_manage_py_command, exceptChain, h]
  · simp [execute_django_command, run_django_admin_command, exceptChain, hi, h]
  · simp only [List.cons_append, List.nil_append] at h
    simp [execute_django_command, run_manage_py_command, exceptChain, h]

/-- Witness for the amended C2 at concrete environments. -/
theorem other_exception_exit_codes_witness :
    ((execute_django_command envBoom stdState none).exitCode = 1 ∧
      (execute_django_command envBoom stdState none).stderr =
        ["Error executing django command: " ++ "boom"]) ∧
    ((execute_django_command envBoom stdState (some "/proj/manage.py")).exitCode = 1 ∧
      (execute_django_command envBoom stdState (some "/proj/manage.py")).stderr =
        ["Error executing django command: " ++ "boom"]) ∧
    ((execute_django_command envKeyboard stdState (some "/proj/manage.py")).exitCode = 1 ∧
      (execute_django_command envKeyboard stdState (some "/proj/manage.py")).stderr = []) :=
  ⟨(other_exception_exit_codes envBoom stdState "/proj/manage.py" "boom").1 rfl rfl,
   (other_exception_exit_codes envBoom stdState "/proj/manage.py" "boom").2.1 rfl,
   (other_exception_exit_codes envKeyboard stdState "/proj/manage.py" "boom").2.2.2 rfl⟩

/-- C8: the subprocess command is exactly
`[sys.executable, <manage.py path>] + sys.argv[1:]` (and no in-process call
is made), and the in-process fallback — made once the django import
succeeds; a failed import makes no call at all — receives exactly
`["django-admin"] + sys.argv[1:]` (and no subprocess is started): arguments
after the program name are forwarded unchanged and in order.  The fourth
conjunct states passthrough unconditionally: every in-process call that is
made receives exactly those arguments. -/
theorem argument_passthrough (env : Env) (st : SysState) (p : String) :
    (execute_django_command env st (some p)).subprocessCalls =
      [[st.executable, p] ++ st.argv.tail] ∧
    (execute_django_command env st (some p)).inProcessCalls = [] ∧
    (env.djangoImport = PyResult.ok () →
      (execute_django_command env st none).inProcessCalls =
        [["django-admin"] ++ st.argv.tail]) ∧
    (∀ c ∈ (execute_django_command env st none).inProcessCalls,
      c = ["django-admin"] ++ st.argv.tail) ∧
    (execute_django_command env st none).subprocessCalls = [] := by
  refine ⟨rfl, rfl, fun hi => ?_, ?_, ?_⟩
  · cases henv : env.executeFromCommandLine ("django-admin" :: st.argv.tail) <;>
      simp [execute_django_command, run_django_admin_command, hi, henv]
  · intro c hc
    cases hi : env.djangoImport with
    | exn e =>
        simp [execute_django_command, run_django_admin_command, hi] at hc
    | ok u =>
        cases henv : env.executeFromCommandLine ("django-admin" :: st.argv.tail) <;>
          simp [execute_django_command, run_django_admin_command, hi, henv] at hc <;>
          simp [hc]
  · cases hi : env.djangoImport with
    | exn e => simp [execute_django_command, run_django_admin_command, hi]
    | ok u =>
        cases henv : env.executeFromCommandLine ("django-admin" :: st.argv.tail) <;>
          simp [execute_django_command, run_django_admin_command, hi, henv]

/-- Witness for C8: with Django importable and the program invoked as
`easy-django runserver 8000`, the one in-process call receives exactly
`["django-admin", "runserver", "8000"]`. -/
theorem argument_passthrough_witness :
    (execute_django_command envOk stdState none).inProcessCalls =
      [["django-admin"] ++ stdState.argv.tail] ∧
    (["django-admin", "runserver", "8000"] : List String) =
      ["django-admin"] ++ stdState.argv.tail :=
  ⟨(argument_passthrough envOk stdState "/proj/manage.py").2.2.1 rfl,
   (argument_passthrough envOk stdState "/proj/manage.py").2.2.2.1
     ["django-admin", "runserver", "8000"] (by decide)⟩

/-- C9 counterexample: invoked as `easy-django runserver 8000` with no
manage.py found, `execute_django_command` completes with
`sys.argv = ["django-admin", "runserver", "8000"]`, different from the
original `sys.argv` — `run_django_admin_command` rebinds `sys.argv` and
never restores it, so global interpreter state IS mutated. -/
theorem fallback_mutates_sys_argv :
    (execute_django_command envOk stdState none).finalArgv ≠ stdState.argv := by
  decide

/-- C9 (amended): with a manage.py path supplied `sys.argv` is left
unchanged; in the django-admin fallback, if the django import raises (as
when Django is not installed) `sys.argv` is also left unchanged and no
in-process call is made, while if the import succeeds `sys.argv` is left
equal to `["django-admin"] + original sys.argv[1:]`, not restored. -/
theorem final_argv_characterisation (env : Env) (st : SysState) (p : String) :
    (execute_django_command env st (some p)).finalArgv = st.argv ∧
    (∀ e, env.djangoImport = PyResult.exn e →
      (execute_django_command env st none).finalArgv = st.argv) ∧
    (env.djangoImport = PyResult.ok () →
      (execute_django_command env st none).finalArgv =
        "django-admin" :: st.argv.tail) := by
  refine ⟨rfl, fun e he => ?_, fun hi => ?_⟩
  · simp [execute_django_command, run_django_admin_command, he]
  · cases henv : env.executeFromCommandLine ("django-admin" :: st.argv.tail) <;>
      simp [execute_django_command, run_django_admin_command, hi, henv]

/-- Witness for the amended C9: with Django importable the fallback leaves
`sys.argv = ["django-admin", "runserver", "8000"]`; with the import
failing, `sys.argv` is untouched; the manage.py branch never touches it. -/
theorem final_argv_characterisation_witness :
    (execute_django_command envOk stdState (some "/proj/manage.py")).finalArgv =
      stdState.argv ∧
    (execute_django_command envNoDjango stdState none).finalArgv =
      stdState.argv ∧
    (execute_django_command envOk stdState none).finalArgv =
      "django-admin" :: stdState.argv.tail :=
  ⟨(final_argv_characterisation envOk stdState "/proj/manage.py").1,
   (final_argv_characterisation envNoDjango stdState "/proj/manage.py").2.1
     (PyExc.importError "No module named django") rfl,
   (final_argv_characterisation envOk stdState "/proj/manage.py").2.2 rfl⟩

/-- C10: a `SystemExit` whose `code` attribute is not an integer (`None`,
a string, ...) makes `execute_django_command` return exit code 1, from
either dispatch branch (in the fallback branch the in-process call that
raises it happens after a successful django import). -/
theorem nonint_systemexit_exit_code (env : Env) (st : SysState) (p : String)
    (code : PyExitCode) (h : code.isInt = false) :
    (env.djangoImport = PyResult.ok () →
      env.executeFromCommandLine ("django-admin" :: st.argv.tail) =
        PyResult.exn (PyExc.systemExit code) →
      (execute_django_command env st none).exitCode = 1) ∧
    (env.subprocessRun ([st.executable, p] ++ st.argv.tail) =
        PyResult.exn (PyExc.systemExit code) →
      (execute_django_command env st (some p)).exitCode = 1) := by
  cases code with
  | int c => simp [PyExitCode.isInt] at h
  | noneVal =>
      refine ⟨fun hi hc => ?_, fun hc => ?_⟩
      · simp [execute_django_command, run_django_admin_command, exceptChain,
          hi, hc]
      · simp only [List.cons_append, List.nil_append] at hc
        simp [execute_django_command, run_manage_py_command, exceptChain, hc]
  | str s =>
      refine ⟨fun hi hc => ?_, fun hc => ?_⟩
      · simp [execute_django_command, run_django_admin_command, exceptChain,
          hi, hc]
      · simp only [List.cons_append, List.nil_append] at hc
        simp [execute_django_command, run_manage_py_command, exceptChain, hc]

/-- Witness for C10: `sys.exit()` (code `None`) from either branch gives
exit code 1. -/
theorem nonint_systemexit_exit_code_witness :
    (execute_django_command envExitNone stdState none).exitCode = 1 ∧
    (execute_django_command envExitNone stdState (some "/proj/manage.py")).exitCode = 1 :=
  ⟨(nonint_systemexit_exit_code envExitNone stdState "/proj/manage.py"
      PyExitCode.noneVal rfl).1 rfl rfl,
   (nonint_systemexit_exit_code envExitNone stdState "/proj/manage.py"
      PyExitCode.noneVal rfl).2 rfl⟩

/-- Whether a listing contains a file entry (regular file,
`follow_symlinks=False`) named exactly `fn`. -/
def FSEntries.hasFileNamed : FSEntries → String → Bool
  | FSEntries.nil, _ => false
  | FSEntries.cons name FSTree.file rest, fn =>
      if name = fn then true else FSEntries.hasFileNamed rest fn
  | FSEntries.cons _ (FSTree.dir _) rest, fn => FSEntries.hasFileNamed rest fn
  | FSEntries.cons _ FSTree.symlink rest, fn => FSEntries.hasFileNamed rest fn

/-- The subdirectories collected by the first `os.scandir` loop, in listing
order: directory entries whose names neither start with `'.'` nor belong to
`skip_dirs`. -/
def FSEntries.collectedSubdirs (skip : List String) : FSEntries → List (String × FSTree)
  | FSEntries.nil => []
  | FSEntries.cons name (FSTree.dir es) rest =>
      if startsWithDot name || skip.contains name then
        FSEntries.collectedSubdirs skip rest
      else
        (name, FSTree.dir es) :: FSEntries.collectedSubdirs skip rest
  | FSEntries.cons _ FSTree.file rest => FSEntries.collectedSubdirs skip rest
  | FSEntries.cons _ FSTree.symlink rest => FSEntries.collectedSubdirs skip rest

theorem findFirstMatchingFile_of_has :
    ∀ (d : List String) (es : FSEntries) (fn : String),
      FSEntries.hasFileNamed es fn = true →
      findFirstMatchingFile d es fn = some (d ++ [fn])
  | d, FSEntries.nil, fn, h => by
      simp [FSEntries.hasFileNamed] at h
  | d, FSEntries.cons name FSTree.file rest, fn, h => by
      by_cases hn : name = fn
      · subst hn; simp [findFirstMatchingFile]
      · simp [FSEntries.hasFileNamed, hn] at h
        simp [findFirstMatchingFile, hn,
          findFirstMatchingFile_of_has d rest fn h]
  | d, FSEntries.cons name (FSTree.dir es) rest, fn, h => by
      simp [FSEntries.hasFileNamed] at h
      simp [findFirstMatchingFile, findFirstMatchingFile_of_has d rest fn h]
  | d, FSEntries.cons name FSTree.symlink rest, fn, h => by
      simp [FSEntries.hasFileNamed] at h
      simp [findFirstMatchingFile, findFirstMatchingFile_of_has d rest fn h]

theorem findFirstMatchingFile_of_not_has :
    ∀ (d : List String) (es : FSEntries) (fn : String),
      FSEntries.hasFileNamed es fn = false →
      findFirstMatchingFile d es fn = none
  | _, FSEntries.nil, _, _ => rfl
  | d, FSEntries.cons name FSTree.file rest, fn, h => by
      by_cases hn : name = fn
      · simp [FSEntries.hasFileNamed, hn] at h
      · simp [FSEntries.hasFileNamed, hn] at h
        simp [findFirstMatchingFile, hn,
          findFirstMatchingFile_of_not_has d rest fn h]
  | d, FSEntries.cons name (FSTree.dir es) rest, fn, h => by
      simp [FSEntries.hasFileNamed] at h
      simp [findFirstMatchingFile, findFirstMatchingFile_of_not_has d rest fn h]
  | d, FSEntries.cons name FSTree.symlink rest, fn, h => by
      simp [FSEntries.hasFileNamed] at h
      simp [findFirstMatchingFile, findFirstMatchingFile_of_not_has d rest fn h]

theorem searchSubdirs_eq_findSome :
    ∀ (d : List String) (es : FSEntries) (fn : String) (skip : List String),
      searchSubdirs d es fn skip =
        (FSEntries.collectedSubdirs skip es).findSome?
          (fun e => _find_files_scan_dir (d ++ [e.fst]) e.snd fn skip)
  | _, FSEntries.nil, _, _ => rfl
  | d, FSEntries.cons name FSTree.file rest, fn, skip => by
      simp [searchSubdirs, FSEntries.collectedSubdirs,
        searchSubdirs_eq_findSome d rest fn skip]
  | d, FSEntries.cons name FSTree.symlink rest, fn, skip => by
      simp [searchSubdirs, FSEntries.collectedSubdirs,
        searchSubdirs_eq_findSome d rest fn skip]
  | d, FSEntries.cons name (FSTree.dir es) rest, fn, skip => by
      by_cases hf : (startsWithDot name = true ∨ name ∈ skip)
      · simp [searchSubdirs, FSEntries.collectedSubdirs, hf,
          searchSubdirs_eq_findSome d rest fn skip]
      · cases hscan : _find_files_scan_dir (d ++ [name]) (FSTree.dir es) fn skip <;>
          simp [searchSubdirs, FSEntries.collectedSubdirs, hf, hscan,
            List.findSome?_cons, searchSubdirs_eq_findSome d rest fn skip]

/-- C7: `_find_files_scan_dir` has early-exit-on-first-match semantics.
If the scanned directory's own listing contains a file entry named exactly
`filename`, that file's path is the result — returned before any
subdirectory is descended into, whatever the subtrees contain.  Otherwise
the result is the first match produced by recursively searching the
collected subdirectories in the order they were listed
(`List.findSome?`). -/
theorem scan_first_match_semantics (d : List String) (es : FSEntries)
    (fn : String) (skip : List String) :
    _find_files_scan_dir d (FSTree.dir es) fn skip =
      if FSEntries.hasFileNamed es fn then some (d ++ [fn])
      else
        (FSEntries.collectedSubdirs skip es).findSome?
          (fun e => _find_files_scan_dir (d ++ [e.fst]) e.snd fn skip) := by
  by_cases h : FSEntries.hasFileNamed es fn = true
  · simp [_find_files_scan_dir, findFirstMatchingFile_of_has d es fn h, h]
  · simp only [Bool.not_eq_true] at h
    simp [_find_files_scan_dir, findFirstMatchingFile_of_not_has d es fn h, h,
      searchSubdirs_eq_findSome]

theorem nodupB_cons {x : String} {xs : List String}
    (h : nodupB (x :: xs) = true) : x ∉ xs ∧ nodupB xs = true := by
  by_cases hm : x ∈ xs
  · simp [nodupB, hm] at h
  · simpa [nodupB, hm] using h

theorem findFirstMatchingFile_eq_append :
    ∀ (d : List String) (es : FSEntries) (fn : String) (p : List String),
      findFirstMatchingFile d es fn = some p → p = d ++ [fn]
  | d, FSEntries.nil, fn, p, h => by simp [findFirstMatchingFile] at h
  | d, FSEntries.cons name FSTree.file rest, fn, p, h => by
      by_cases hn : name = fn
      · subst hn
        simp [findFirstMatchingFile] at h
        exact h.symm
      · simp [findFirstMatchingFile, hn] at h
        exact findFirstMatchingFile_eq_append d rest fn p h
  | d, FSEntries.cons name (FSTree.dir es) rest, fn, p, h => by
      simp [findFirstMatchingFile] at h
      exact findFirstMatchingFile_eq_append d rest fn p h
  | d, FSEntries.cons name FSTree.symlink rest, fn, p, h => by
      simp [findFirstMatchingFile] at h
      exact findFirstMatchingFile_eq_append d rest fn p h

theorem findFirstMatchingFile_mem :
    ∀ (d : List String) (es : FSEntries) (fn : String) (p : List String),
      findFirstMatchingFile d es fn = some p → fn ∈ FSEntries.names es
  | d, FSEntries.nil, fn, p, h => by simp [findFirstMatchingFile] at h
  | d, FSEntries.cons name FSTree.file rest, fn, p, h => by
      by_cases hn : name = fn
      · subst hn; simp [FSEntries.names]
      · simp [findFirstMatchingFile, hn] at h
        simp [FSEntries.names]
        exact Or.inr (findFirstMatchingFile_mem d rest fn p h)
  | d, FSEntries.cons name (FSTree.dir es) rest, fn, p, h => by
      simp [findFirstMatchingFile] at h
      simp [FSEntries.names]
      exact Or.inr (findFirstMatchingFile_mem d rest fn p h)
  | d, FSEntries.cons name FSTree.symlink rest, fn, p, h => by
      simp [findFirstMatchingFile] at h
      simp [FSEntries.names]
      exact Or.inr (findFirstMatchingFile_mem d rest fn p h)

theorem lookupName_of_findFirst :
    ∀ (d : List String) (es : FSEntries) (fn : String) (p : List String),
      findFirstMatchingFile d es fn = some p →
      nodupB (FSEntries.names es) = true →
      FSEntries.lookupName es fn [] = some FSTree.file
  | d, FSEntries.nil, fn, p, h, _ => by simp [findFirstMatchingFile] at h
  | d, FSEntries.cons name FSTree.file rest, fn, p, h, hnd => by
      by_cases hn : name = fn
      · subst hn; simp [FSEntries.lookupName, FSTree.lookup]
      · simp [findFirstMatchingFile, hn] at h
        have hnd' := (nodupB_cons (by simpa [FSEntries.names] using hnd)).2
        simp [FSEntries.lookupName, hn]
        exact lookupName_of_findFirst d rest fn p h hnd'
  | d, FSEntries.cons name (FSTree.dir es) rest, fn, p, h, hnd => by
      simp [findFirstMatchingFile] at h
      have hmem := findFirstMatchingFile_mem d rest fn p h
      have hnd0 := @nodupB_cons name (FSEntries.names rest)
        (by simpa [FSEntries.names] using hnd)
      have hn : name ≠ fn := fun he => hnd0.1 (he ▸ hmem)
      simp [FSEntries.lookupName, hn]
      exact lookupName_of_findFirst d rest fn p h hnd0.2
  | d, FSEntries.cons name FSTree.symlink rest, fn, p, h, hnd => by
      simp [findFirstMatchingFile] at h
      have hmem := findFirstMatchingFile_mem d rest fn p h
      have hnd0 := @nodupB_cons name (FSEntries.names rest)
        (by simpa [FSEntries.names] using hnd)
      have hn : name ≠ fn := fun he => hnd0.1 (he ▸ hmem)
      simp [FSEntries.lookupName, hn]
      exact lookupName_of_findFirst d rest fn p h hnd0.2

mutual
theorem scan_sound :
    ∀ (d : List String) (t : FSTree) (fn : String) (skip : List String)
      (p : List String),
      _find_files_scan_dir d t fn skip = some p →
      ∃ mid, p = d ++ (mid ++ [fn]) ∧
        (∀ c ∈ mid, startsWithDot c = false ∧ c ∉ skip) ∧
        (FSTree.wfb t = true → FSTree.lookup t (mid ++ [fn]) = some FSTree.file)
  | d, FSTree.file, fn, skip, p, h => by simp [_find_files_scan_dir] at h
  | d, FSTree.symlink, fn, skip, p, h => by simp [_find_files_scan_dir] at h
  | d, FSTree.dir es, fn, skip, p, h => by
      cases hf : findFirstMatchingFile d es fn with
      | some q =>
          have hq : q = p := by simpa [_find_files_scan_dir, hf] using h
          have hpe := findFirstMatchingFile_eq_append d es fn q hf
          refine ⟨[], by simp [← hq, hpe], by simp, fun hw => ?_⟩
          simp only [FSTree.wfb, Bool.and_eq_true] at hw
          simp [FSTree.lookup, lookupName_of_findFirst d es fn q hf hw.1]
      | none =>
          have hs : searchSubdirs d es fn skip = some p := by
            simpa [_find_files_scan_dir, hf] using h
          obtain ⟨name, mid, hp, hfil, _, hlk⟩ :=
            searchSubdirs_sound d es fn skip p hs
          refine ⟨name :: mid, by simpa using hp, hfil, fun hw => ?_⟩
          simp only [FSTree.wfb] at hw
          simpa [FSTree.lookup] using hlk hw

theorem searchSubdirs_sound :
    ∀ (d : List String) (es : FSEntries) (fn : String) (skip : List String)
      (p : List String),
      searchSubdirs d es fn skip = some p →
      ∃ name mid, p = d ++ (name :: (mid ++ [fn])) ∧
        (∀ c ∈ name :: mid, startsWithDot c = false ∧ c ∉ skip) ∧
        name ∈ FSEntries.names es ∧
        ((nodupB (FSEntries.names es) && FSEntries.wfb es) = true →
          FSEntries.lookupName es name (mid ++ [fn]) = some FSTree.file)
  | d, FSEntries.nil, fn, skip, p, h => by simp [searchSubdirs] at h
  | d, FSEntries.cons name0 (FSTree.dir es0) rest, fn, skip, p, h => by
      by_cases hcond : (startsWithDot name0 = true ∨ name0 ∈ skip)
      · have hs : searchSubdirs d rest fn skip = some p := by
          simpa [searchSubdirs, hcond] using h
        obtain ⟨name, mid, hp, hfil, hmem, hlk⟩ :=
          searchSubdirs_sound d rest fn skip p hs
        refine ⟨name, mid, hp, hfil, by simp [FSEntries.names, hmem], fun hw => ?_⟩
        simp only [FSEntries.names, FSEntries.wfb, Bool.and_eq_true] at hw
        have hnd' := nodupB_cons hw.1
        have hne : name0 ≠ name := fun he => hnd'.1 (he ▸ hmem)
        simp [FSEntries.lookupName, hne]
        exact hlk (by simp [hnd'.2, hw.2.2])
      · cases hscan : _find_files_scan_dir (d ++ [name0]) (FSTree.dir es0) fn skip with
        | some q =>
            have hq : q = p := by simpa [searchSubdirs, hcond, hscan] using h
            obtain ⟨mid, hp, hfil, hlk⟩ :=
              scan_sound (d ++ [name0]) (FSTree.dir es0) fn skip q hscan
            simp only [not_or, Bool.not_eq_true] at hcond
            refine ⟨name0, mid, by simp [← hq, hp], ?_,
              by simp [FSEntries.names], fun hw => ?_⟩
            · intro c hc
              rcases List.mem_cons.mp hc with hc0 | hcm
              · exact hc0 ▸ ⟨hcond.1, hcond.2⟩
              · exact hfil c hcm
            · simp only [FSEntries.names, FSEntries.wfb, Bool.and_eq_true] at hw
              simp [FSEntries.lookupName]
              exact hlk hw.2.1
        | none =>
            have hs : searchSubdirs d rest fn skip = some p := by
              simpa [searchSubdirs, hcond, hscan] using h
            obtain ⟨name, mid, hp, hfil, hmem, hlk⟩ :=
              searchSubdirs_sound d rest fn skip p hs
            refine ⟨name, mid, hp, hfil, by simp [FSEntries.names, hmem], fun hw => ?_⟩
            simp only [FSEntries.names, FSEntries.wfb, Bool.and_eq_true] at hw
            have hnd' := nodupB_cons hw.1
            have hne : name0 ≠ name := fun he => hnd'.1 (he ▸ hmem)
            simp [FSEntries.lookupName, hne]
            exact hlk (by simp [hnd'.2, hw.2.2])
  | d, FSEntries.cons name0 FSTree.file rest, fn, skip, p, h => by
      have hs : searchSubdirs d rest fn skip = some p := by
        simpa [searchSubdirs] using h
      obtain ⟨name, mid, hp, hfil, hmem, hlk⟩ :=
        searchSubdirs_sound d rest fn skip p hs
      refine ⟨name, mid, hp, hfil, by simp [FSEntries.names, hmem], fun hw => ?_⟩
      simp only [FSEntries.names, FSEntries.wfb, Bool.and_eq_true] at hw
      have hnd' := nodupB_cons hw.1
      have hne : name0 ≠ name := fun he => hnd'.1 (he ▸ hmem)
      simp [FSEntries.lookupName, hne]
      exact hlk (by simp [hnd'.2, hw.2.2])
  | d, FSEntries.cons name0 FSTree.symlink rest, fn, skip, p, h => by
      have hs : searchSubdirs d rest fn skip = some p := by
        simpa [searchSubdirs] using h
      obtain ⟨name, mid, hp, hfil, hmem, hlk⟩ :=
        searchSubdirs_sound d rest fn skip p hs
      refine ⟨name, mid, hp, hfil, by simp [FSEntries.names, hmem], fun hw => ?_⟩
      simp only [FSEntries.names, FSEntries.wfb, Bool.and_eq_true] at hw
      have hnd' := nodupB_cons hw.1
      have hne : name0 ≠ name := fun he => hnd'.1 (he ▸ hmem)
      simp [FSEntries.lookupName, hne]
      exact hlk (by simp [hnd'.2, hw.2.2])
end
/-- The first entry named `n` in a listing, if any. -/
def FSEntries.findEntry : FSEntries → String → Option FSTree
  | FSEntries.nil, _ => none
  | FSEntries.cons name t rest, n =>
      if name = n then some t else FSEntries.findEntry rest n

theorem lookupName_eq_findEntry :
    ∀ (es : FSEntries) (n : String) (q : List String),
      FSEntries.lookupName es n q =
        (FSEntries.findEntry es n).bind (fun t => FSTree.lookup t q)
  | FSEntries.nil, n, q => by simp [FSEntries.lookupName, FSEntries.findEntry]
  | FSEntries.cons name t rest, n, q => by
      by_cases hn : name = n
      · simp [FSEntries.lookupName, FSEntries.findEntry, hn]
      · simp [FSEntries.lookupName, FSEntries.findEntry, hn,
          lookupName_eq_findEntry rest n q]

theorem lookup_append (a : List String) :
    ∀ (t : FSTree) (b : List String),
      FSTree.lookup t (a ++ b) =
        (FSTree.lookup t a).bind (fun u => FSTree.lookup u b) := by
  induction a with
  | nil => intro t b; simp [FSTree.lookup]
  | cons x xs ih =>
      intro t b
      cases t with
      | file => simp [FSTree.lookup]
      | symlink => simp [FSTree.lookup]
      | dir es =>
          simp only [List.cons_append, FSTree.lookup, lookupName_eq_findEntry]
          cases FSEntries.findEntry es x with
          | none => simp
          | some u => simp [ih u b]

theorem wfb_findEntry :
    ∀ (es : FSEntries) (n : String) (t : FSTree),
      FSEntries.wfb es = true → FSEntries.findEntry es n = some t →
      FSTree.wfb t = true
  | FSEntries.nil, n, t, hw, h => by simp [FSEntries.findEntry] at h
  | FSEntries.cons name u rest, n, t, hw, h => by
      simp only [FSEntries.wfb, Bool.and_eq_true] at hw
      by_cases hn : name = n
      · simp only [FSEntries.findEntry, if_pos hn, Option.some.injEq] at h
        exact h ▸ hw.1
      · simp only [FSEntries.findEntry, if_neg hn] at h
        exact wfb_findEntry rest n t hw.2 h

theorem wfb_lookup (q : List String) :
    ∀ (t u : FSTree),
      FSTree.wfb t = true → FSTree.lookup t q = some u → FSTree.wfb u = true := by
  induction q with
  | nil =>
      intro t u hw h
      simp [FSTree.lookup] at h
      exact h ▸ hw
  | cons x xs ih =>
      intro t u hw h
      cases t with
      | file => simp [FSTree.lookup] at h
      | symlink => simp [FSTree.lookup] at h
      | dir es =>
          simp only [FSTree.lookup, lookupName_eq_findEntry] at h
          simp only [FSTree.wfb, Bool.and_eq_true] at hw
          cases hf : FSEntries.findEntry es x with
          | none => rw [hf] at h; simp at h
          | some v =>
              rw [hf] at h; simp only [Option.some_bind] at h
              exact ih v u (wfb_findEntry es x v hw.2 hf) h

theorem find_from_scanAt :
    ∀ (root : FSTree) (sc : List String) (top : Option (List String))
      (level : Nat) (p : List String),
      (find_manage_py_from root sc top level).fst = some p →
      ∃ lvl, scanAt root lvl = some p
  | root, sc, top, level, p, h => by
      rw [find_manage_py_from] at h
      split at h
      · rename_i q heq
        simp only at h
        exact ⟨sc, by rw [heq, h]⟩
      · split at h
        · simp at h
        · split at h
          · simp at h
          · split at h
            · simp at h
            · split at h
              · simp at h
              · split at h
                · simp at h
                · exact find_from_scanAt root sc.dropLast top (level + 1) p
                    (by simpa using h)
termination_by _ sc _ _ _ => sc.length
decreasing_by
  rename_i hroot
  have : sc.length ≠ 0 := fun hz => hroot (List.eq_nil_of_length_eq_zero hz)
  simp [List.length_dropLast]
  omega

/-- A sample filesystem: `manage.py` at the root, and a chain of empty
directories `a/b/c/d`. -/
def sampleFS : FSTree :=
  FSTree.dir (FSEntries.cons "manage.py" FSTree.file
    (FSEntries.cons "a" (FSTree.dir (FSEntries.cons "b" (FSTree.dir
      (FSEntries.cons "c" (FSTree.dir (FSEntries.cons "d" (FSTree.dir FSEntries.nil)
        FSEntries.nil)) FSEntries.nil)) FSEntries.nil)) FSEntries.nil))

/-- A sample project subtree: `apps/web/manage.py`. -/
def sampleProj : FSTree :=
  FSTree.dir (FSEntries.cons "apps" (FSTree.dir (FSEntries.cons "web"
    (FSTree.dir (FSEntries.cons "manage.py" FSTree.file FSEntries.nil))
    FSEntries.nil)) FSEntries.nil)

/-- C3: whenever `find_manage_py` returns a non-None value, the returned
path names an existing regular file — `FSTree.file`, so not a symlink and
not a directory — whose base name is `"manage.py"`.  The hypothesis
`FSTree.wfb root` states that sibling names are pairwise distinct,
as on a real filesystem. -/
theorem find_manage_py_returns_regular_file (root : FSTree) (cwd : List String)
    (top : Option (List String)) (p : List String)
    (hw : FSTree.wfb root = true)
    (h : (find_manage_py root cwd top).fst = some p) :
    FSTree.lookup root p = some FSTree.file ∧ p.getLast? = some "manage.py" := by
  obtain ⟨lvl, hscan⟩ := find_from_scanAt root cwd top 0 p h
  cases hl : FSTree.lookup root lvl with
  | none => rw [scanAt, hl] at hscan; simp at hscan
  | some t =>
      rw [scanAt, hl] at hscan
      simp only at hscan
      obtain ⟨mid, hp, hfil, hlk⟩ := scan_sound lvl t "manage.py" SKIP_DIRS p hscan
      have hwt : FSTree.wfb t = true := wfb_lookup lvl root t hw hl
      have hfile : FSTree.lookup root p = some FSTree.file := by
        rw [hp, lookup_append lvl root (mid ++ ["manage.py"]), hl]
        simpa using hlk hwt
      refine ⟨hfile, ?_⟩
      rw [hp, ← List.append_assoc]
      simp

/-- Witness for C3: from `a/b/c` in `sampleFS`, the search ascends to the
root level and returns `manage.py` there — an existing regular file named
`manage.py`. -/
theorem find_manage_py_returns_regular_file_witness :
    FSTree.lookup sampleFS ["manage.py"] = some FSTree.file ∧
      (["manage.py"] : List String).getLast? = some "manage.py" :=
  find_manage_py_returns_regular_file sampleFS ["a", "b", "c"] none ["manage.py"]
    (by decide)
    (by simp [find_manage_py, find_manage_py_from, scanAt, pathExists,
      FSTree.lookup, FSEntries.lookupName, _find_files_scan_dir, searchSubdirs,
      findFirstMatchingFile, SKIP_DIRS, TOP_LEVEL_SEARCH_MAX_DEPTH, sampleFS])

/-- C6: the downward scan never descends into a hidden (leading `'.'`) or
denylisted (`skip_dirs`) directory, so every path it returns has no hidden
or denylisted name among its intermediate components strictly below the
scanned root (the components after the root prefix and before the final
file name). -/
theorem scan_skips_hidden_and_denylisted (d : List String) (t : FSTree)
    (fn : String) (skip : List String) (p : List String)
    (h : _find_files_scan_dir d t fn skip = some p) :
    ∀ c ∈ (p.drop d.length).dropLast,
      startsWithDot c = false ∧ c ∉ skip := by
  obtain ⟨mid, hp, hfil, _⟩ := scan_sound d t fn skip p h
  intro c hc
  apply hfil
  rw [hp, List.drop_left, List.dropLast_concat] at hc
  exact hc

/-- Witness for C6: scanning `sampleProj` (rooted at `proj`) finds
`proj/apps/web/manage.py`; the intermediate component `apps` is neither
hidden nor in `SKIP_DIRS`. -/
theorem scan_skips_hidden_and_denylisted_witness :
    startsWithDot "apps" = false ∧ "apps" ∉ SKIP_DIRS :=
  scan_skips_hidden_and_denylisted ["proj"] sampleProj "manage.py" SKIP_DIRS
    ["proj", "apps", "web", "manage.py"]
    (by simp only [_find_files_scan_dir, searchSubdirs, findFirstMatchingFile,
      sampleProj, SKIP_DIRS]; decide)
    "apps" (by decide)

/-- The `k`-th ancestor of a path: `Path.parent` applied `k` times
(`List.dropLast` in the component model). -/
def ancestorLevel : Nat → List String → List String
  | 0, l => l
  | k + 1, l => ancestorLevel k l.dropLast

theorem find_from_eq_of_scan_none (root : FSTree) (sc : List String)
    (top : Option (List String)) (level : Nat)
    (h : scanAt root sc = none) :
    find_manage_py_from root sc top level =
      if pathExists root (sc ++ [".git"]) = true then (none, [sc])
      else if pathExists root (sc ++ ["pyproject.toml"]) = true then (none, [sc])
      else if top = none ∧ TOP_LEVEL_SEARCH_MAX_DEPTH ≤ level then (none, [sc])
      else if some sc = top then (none, [sc])
      else if _h : sc = [] then (none, [sc])
      else ((find_manage_py_from root sc.dropLast top (level + 1)).fst,
            sc :: (find_manage_py_from root sc.dropLast top (level + 1)).snd) := by
  rw [find_manage_py_from, h]

theorem find_from_depth_bounded (root : FSTree) :
    ∀ (b : Nat) (cwd : List String) (level : Nat),
      TOP_LEVEL_SEARCH_MAX_DEPTH - level = b →
      (∀ k, k ≤ b → scanAt root (ancestorLevel k cwd) = none) →
      (find_manage_py_from root cwd none level).fst = none ∧
      ∀ l ∈ (find_manage_py_from root cwd none level).snd,
        ∃ k, k ≤ b ∧ l = ancestorLevel k cwd := by
  intro b
  induction b with
  | zero =>
      intro cwd level hb hscan
      have h0 : scanAt root cwd = none := by
        simpa [ancestorLevel] using hscan 0 (Nat.le_refl 0)
      have hlev : TOP_LEVEL_SEARCH_MAX_DEPTH ≤ level := by omega
      have hres : find_manage_py_from root cwd none level = (none, [cwd]) := by
        rw [find_from_eq_of_scan_none root cwd none level h0]
        split
        · rfl
        · split
          · rfl
          · rw [if_pos ⟨rfl, hlev⟩]
      rw [hres]
      exact ⟨rfl, fun l hl => ⟨0, Nat.le_refl 0,
        by simpa [ancestorLevel] using hl⟩⟩
  | succ m ih =>
      intro cwd level hb hscan
      have h0 : scanAt root cwd = none := by
        simpa [ancestorLevel] using hscan 0 (Nat.zero_le _)
      have hexit : ∀ l ∈ [cwd], ∃ k, k ≤ m + 1 ∧ l = ancestorLevel k cwd := by
        intro l hl
        exact ⟨0, Nat.zero_le _, by simpa [ancestorLevel] using hl⟩
      rw [find_from_eq_of_scan_none root cwd none level h0]
      split
      · exact ⟨rfl, hexit⟩
      · split
        · exact ⟨rfl, hexit⟩
        · split
          · exact ⟨rfl, hexit⟩
          · split
            · exact ⟨rfl, hexit⟩
            · split
              · exact ⟨rfl, hexit⟩
              · have hb' : TOP_LEVEL_SEARCH_MAX_DEPTH - (level + 1) = m := by
                  simp only [TOP_LEVEL_SEARCH_MAX_DEPTH] at hb ⊢
                  omega
                have hscan' : ∀ k, k ≤ m →
                    scanAt root (ancestorLevel k cwd.dropLast) = none := by
                  intro k hk
                  simpa [ancestorLevel] using hscan (k + 1) (by omega)
                obtain ⟨hf, hs⟩ := ih cwd.dropLast (level + 1) hb' hscan'
                refine ⟨hf, ?_⟩
                intro l hl
                simp only [List.mem_cons] at hl
                rcases hl with hl | hl
                · exact ⟨0, Nat.zero_le _, by simp [ancestorLevel, hl]⟩
                · obtain ⟨k, hk, hkl⟩ := hs l hl
                  exact ⟨k + 1, by omega, by simpa [ancestorLevel] using hkl⟩

/-- C5: when no top-level directory can be determined from Django settings
(`top_level_dir = none`), `find_manage_py` scans the starting directory and
at most `TOP_LEVEL_SEARCH_MAX_DEPTH = 3` ancestor levels above it; when
those scans all fail it returns `None`, and every level it scanned is one
of the starting directory's first three ancestors or the starting directory
itself — it never ascends further. -/
theorem depth_limited_when_no_top_level (root : FSTree) (cwd : List String)
    (hscan : ∀ k, k ≤ TOP_LEVEL_SEARCH_MAX_DEPTH →
      scanAt root (ancestorLevel k cwd) = none) :
    (find_manage_py root cwd none).fst = none ∧
    ∀ l ∈ (find_manage_py root cwd none).snd,
      ∃ k, k ≤ TOP_LEVEL_SEARCH_MAX_DEPTH ∧ l = ancestorLevel k cwd :=
  find_from_depth_bounded root TOP_LEVEL_SEARCH_MAX_DEPTH cwd 0 rfl hscan

/-- Witness for C5: in `sampleFS` from `a/b/c/d`, the scans of `a/b/c/d`,
`a/b/c`, `a/b` and `a` all fail, and the search gives up without scanning
the root (where `manage.py` actually lives). -/
theorem depth_limited_when_no_top_level_witness :
    (find_manage_py sampleFS ["a", "b", "c", "d"] none).fst = none :=
  (depth_limited_when_no_top_level sampleFS ["a", "b", "c", "d"]
    (by
      intro k hk
      simp only [TOP_LEVEL_SEARCH_MAX_DEPTH] at hk
      interval_cases k <;>
        simp [ancestorLevel, scanAt, FSTree.lookup, FSEntries.lookupName,
          _find_files_scan_dir, searchSubdirs, findFirstMatchingFile,
          sampleFS, SKIP_DIRS, startsWithDot])).1

theorem find_from_boundary (root : FSTree) (D : List String)
    (hb : pathExists root (D ++ [".git"]) = true ∨
      pathExists root (D ++ ["pyproject.toml"]) = true) :
    ∀ (rest : List String) (top : Option (List String)) (level : Nat),
      (∀ k, k ≤ rest.length → scanAt root (D ++ rest.take k) = none) →
      (find_manage_py_from root (D ++ rest) top level).fst = none ∧
      ∀ l ∈ (find_manage_py_from root (D ++ rest) top level).snd,
        ∃ k, k ≤ rest.length ∧ l = D ++ rest.take k := by
  intro rest
  induction rest using List.reverseRecOn with
  | nil =>
      intro top level hscan
      have h0 : scanAt root (D ++ []) = none := by
        simpa using hscan 0 (by simp)
      have hres : find_manage_py_from root (D ++ []) top level =
          (none, [D ++ []]) := by
        rw [find_from_eq_of_scan_none root (D ++ []) top level h0]
        rcases hb with hgit | hpy
        · rw [if_pos (by simpa using hgit)]
        · split
          · rfl
          · rw [if_pos (by simpa using hpy)]
      rw [hres]
      exact ⟨rfl, fun l hl => ⟨0, by simp, by simpa using hl⟩⟩
  | append_singleton ys y ih =>
      intro top level hscan
      have h0 : scanAt root (D ++ (ys ++ [y])) = none := by
        have h := hscan (ys ++ [y]).length (Nat.le_refl _)
        rwa [List.take_length] at h
      have hexit : ∀ l ∈ [D ++ (ys ++ [y])],
          ∃ k, k ≤ (ys ++ [y]).length ∧ l = D ++ (ys ++ [y]).take k := by
        intro l hl
        exact ⟨(ys ++ [y]).length, Nat.le_refl _,
          by rw [List.take_length]; simpa using hl⟩
      rw [find_from_eq_of_scan_none root (D ++ (ys ++ [y])) top level h0]
      split
      · exact ⟨rfl, hexit⟩
      · split
        · exact ⟨rfl, hexit⟩
        · split
          · exact ⟨rfl, hexit⟩
          · split
            · exact ⟨rfl, hexit⟩
            · split
              · exact ⟨rfl, hexit⟩
              · have hdl : (D ++ (ys ++ [y])).dropLast = D ++ ys := by
                  rw [show D ++ (ys ++ [y]) = (D ++ ys) ++ [y] from
                    (List.append_assoc D ys [y]).symm]
                  exact List.dropLast_concat
                have hscan' : ∀ k, k ≤ ys.length →
                    scanAt root (D ++ ys.take k) = none := by
                  intro k hk
                  have h := hscan k (by simp; omega)
                  rwa [List.take_append_of_le_length hk] at h
                obtain ⟨hf, hs⟩ := ih top (level + 1) hscan'
                rw [hdl]
                refine ⟨hf, ?_⟩
                intro l hl
                simp only [List.mem_cons] at hl
                rcases hl with hl | hl
                · exact ⟨(ys ++ [y]).length, Nat.le_refl _,
                    by rw [List.take_length]; simpa using hl⟩
                · obtain ⟨k, hk, hkl⟩ := hs l hl
                  refine ⟨k, by simp; omega, ?_⟩
                  rwa [List.take_append_of_le_length hk]

/-- C4: when the starting directory lies inside a directory `D` containing
a `.git` or `pyproject.toml` entry and the filtered downward scans of every
level from the start up to and including `D` find no `manage.py`,
`find_manage_py` returns `None`, and every level it scanned lies between
`D` and the starting directory — it never scans any ancestor of `D`. -/
theorem boundary_stops_search (root : FSTree) (D rest : List String)
    (top : Option (List String))
    (hb : pathExists root (D ++ [".git"]) = true ∨
      pathExists root (D ++ ["pyproject.toml"]) = true)
    (hscan : ∀ k, k ≤ rest.length → scanAt root (D ++ rest.take k) = none) :
    (find_manage_py root (D ++ rest) top).fst = none ∧
    ∀ l ∈ (find_manage_py root (D ++ rest) top).snd,
      ∃ k, k ≤ rest.length ∧ l = D ++ rest.take k :=
  find_from_boundary root D hb rest top 0 hscan

/-- A sample filesystem with a git repository: `home/user/proj` contains
`.git` and `src`; `manage.py` exists only at the filesystem root, outside
the repository. -/
def sampleRepo : FSTree :=
  FSTree.dir (FSEntries.cons "home" (FSTree.dir (FSEntries.cons "user"
    (FSTree.dir (FSEntries.cons "proj" (FSTree.dir
      (FSEntries.cons ".git" (FSTree.dir FSEntries.nil)
        (FSEntries.cons "src" (FSTree.dir FSEntries.nil) FSEntries.nil)))
      FSEntries.nil)) FSEntries.nil))
    (FSEntries.cons "manage.py" FSTree.file FSEntries.nil))

/-- Witness for C4: starting from `home/user/proj/src` in `sampleRepo`, the
scans of `src` and of the git root `proj` fail, and the search stops at
`proj` returning `None`, never reaching the root-level `manage.py`. -/
theorem boundary_stops_search_witness :
    (find_manage_py sampleRepo ["home", "user", "proj", "src"] none).fst = none :=
  (boundary_stops_search sampleRepo ["home", "user", "proj"] ["src"] none
    (Or.inl (by
      simp [pathExists, FSTree.lookup, FSEntries.lookupName, sampleRepo]))
    (by
      intro k hk
      have hk1 : k ≤ 1 := by simpa using hk
      interval_cases k <;>
        simp [scanAt, FSTree.lookup, FSEntries.lookupName,
          _find_files_scan_dir, searchSubdirs, findFirstMatchingFile,
          sampleRepo, SKIP_DIRS, startsWithDot])).1
